import Mathlib

/-! # rancher-metadata: request handler, wait loop and text listing

A shallow embedding of `src/marshal/main.go`: the text renderer `respondText`,
the error responder `respondError`, the long-poll loop of `lookupAnswer` and
the request handler `metadata`, together with the few standard-library
routines they call (`net/url` query escaping, `strings.TrimRight`,
`strings.Split`, `sort.Strings`, `fmt.Sprint`).

Go strings are byte sequences and are compared byte-wise, so they are modelled
as lists of bytes with the lexicographic order.
-/

namespace Metadata

/-! ## Strings -/

/-- One byte of a Go string. -/
abbrev Byte := Fin 256

/-- A Go `string`: a finite sequence of bytes. The order on it is the
lexicographic order of the bytes, which is how Go compares strings. -/
abbrev GoString := List Byte

/-- The bytes (UTF-8) of a string literal. -/
def str (s : String) : GoString :=
  s.toUTF8.data.toList.map (fun b => b.val)

/-- Decimal digits of a natural number, as `%d` prints them. -/
def decimal (n : Nat) : GoString :=
  (Nat.toDigits 10 n).map (fun c => Fin.ofNat c.toNat)

/-- Decimal rendering of an integer, as `%d` and `fmt.Sprint` print the
integer types: a minus sign and the digits of the magnitude. -/
def decimalInt : Int → GoString
  | Int.ofNat n => decimal n
  | Int.negSucc n => str "-" ++ decimal (n + 1)

/-- The call `strings.TrimRight(s, cutset)` for a cutset of ASCII bytes: the
longest suffix made of bytes of the cutset is removed. -/
def TrimRight (s cutset : GoString) : GoString :=
  (s.reverse.dropWhile (fun c => decide (c ∈ cutset))).reverse

/-- The call `strings.Split(s, "/")`: the pieces between the slashes; the
empty string gives one empty piece. -/
def splitSlash (s : GoString) : List GoString :=
  List.splitOn (47 : Byte) s -- 47 is the slash

/-- The call `sort.Strings(out)`: the strings in increasing byte-wise order.
The order is total and antisymmetric, so the result does not depend on the
sorting algorithm; insertion sort stands for it. -/
def sortStrings (out : List GoString) : List GoString :=
  List.insertionSort (fun a b => a ≤ b) out

/-! ## `net/url` query escaping -/

/-- The letters and digits `net/url` never escapes: `a`-`z` (97-122), `A`-`Z`
(65-90), `0`-`9` (48-57). -/
def isAlnum (c : Byte) : Bool :=
  (97 ≤ c.val && c.val ≤ 122) || (65 ≤ c.val && c.val ≤ 90) || (48 ≤ c.val && c.val ≤ 57)

/-- The test `shouldEscape(c, encodeQueryComponent)` of `net/url`: everything
is escaped but letters, digits and `-` (45), `_` (95), `.` (46), `~` (126). -/
def shouldEscape (c : Byte) : Bool :=
  if isAlnum c then false
  else if c = 45 ∨ c = 95 ∨ c = 46 ∨ c = 126 then false
  else true

/-- The table `upperhex = "0123456789ABCDEF"` of `net/url`. -/
def upperhex : GoString := str "0123456789ABCDEF"

/-- What `escape` writes for one byte in mode `encodeQueryComponent`: `+` (43)
for a space (32); `%` (37) and the two digits `upperhex[c>>4]`,
`upperhex[c&15]` for a byte that must be escaped; the byte itself otherwise.
The indices are below 16, so the default of `getD` is never used. -/
def escapeByte (c : Byte) : GoString :=
  if c = 32 then [43]
  else if shouldEscape c then
    [37, upperhex.getD (c.val >>> 4) 0, upperhex.getD (c.val &&& 15) 0]
  else [c]

/-- The function `url.QueryEscape`: every byte written as `escapeByte` says. -/
def QueryEscape (s : GoString) : GoString :=
  s.flatMap escapeByte

/-- The test `ishex` of `net/url`: `0`-`9` (48-57), `a`-`f` (97-102) or `A`-`F`
(65-70). -/
def ishex (c : Byte) : Bool :=
  (48 ≤ c.val && c.val ≤ 57) || (97 ≤ c.val && c.val ≤ 102) || (65 ≤ c.val && c.val ≤ 70)

/-- The function `unhex` of `net/url`: the value of a hexadecimal digit. -/
def unhex (c : Byte) : Nat :=
  if 48 ≤ c.val ∧ c.val ≤ 57 then c.val - 48
  else if 97 ≤ c.val ∧ c.val ≤ 102 then c.val - 97 + 10
  else if 65 ≤ c.val ∧ c.val ≤ 70 then c.val - 65 + 10
  else 0

/-- The function `url.QueryUnescape`: `%XX` becomes the byte
`unhex(X)<<4 | unhex(X)`, `+` (43) a space (32), every other byte stays. A `%`
(37) that is not followed by two hex digits is an `EscapeError`; the error
carries the offending fragment (at most three bytes). -/
def QueryUnescape : GoString → Except GoString GoString
  | [] => .ok []
  | c :: rest =>
    if c = 37 then
      match rest with
      | h1 :: h2 :: tl =>
        if ishex h1 && ishex h2 then
          match QueryUnescape tl with
          | .ok t => .ok (Fin.ofNat ((unhex h1 <<< 4) ||| unhex h2) :: t)
          | .error e => .error e
        else .error (c :: rest.take 2)
      | _ => .error (c :: rest.take 2)
    else
      match QueryUnescape rest with
      | .ok t => .ok ((if c = 43 then 32 else c) :: t)
      | .error e => .error e

/-! ## Tree values -/

/-- A `float64`, carried by the two texts the `fmt` package prints for it:
`fmtF` is `fmt.Sprintf("%f", v)` and `fmtV` is `fmt.Sprint(v)`. Floating-point
arithmetic itself is not modelled. -/
structure Float64 where
  fmtF : GoString
  fmtV : GoString
deriving DecidableEq

/-- The dynamic values (`interface{}`) the handler meets, by the cases of the
type switch in `respondText`: `nil`, `string`, `json.Number`, the integer
types, `float64`, `bool`, `map[string]interface{}`, `[]interface{}`, and any
other type (the `default` case; it carries the text `fmt.Sprint` prints for
it). A map is the list of its entries in the order an iteration visits them. -/
inductive Value where
  | null
  | string (s : GoString)
  | number (s : GoString)
  | int (n : Int)
  | float64 (f : Float64)
  | bool (b : Bool)
  | mapping (m : List (GoString × Value))
  | sequence (l : List Value)
  | other (sprint : GoString)

/-- The test `_, isMap := vv.(map[string]interface{})`. -/
def isMap : Value → Bool
  | .mapping _ => true
  | _ => false

/-- The test `_, isArray := vv.([]interface{})`. -/
def isArray : Value → Bool
  | .sequence _ => true
  | _ => false

/-- Pieces joined with a separator between them. -/
def joinSep (sep : GoString) : List GoString → GoString
  | [] => []
  | [a] => a
  | a :: b :: rest => a ++ sep ++ joinSep sep (b :: rest)

mutual
/-- The call `fmt.Sprint(val)` for one operand (the `%v` form): `<nil>` for
nil, the text itself for a string or `json.Number`, decimal digits for an
integer, `true`/`false`, `map[k:v k:v]` with the keys in sorted order, `[v v]`
for a slice. -/
def Sprint : Value → GoString
  | .null => str "<nil>"
  | .string s => s
  | .number s => s
  | .int n => decimalInt n
  | .float64 f => f.fmtV
  | .bool b => if b then str "true" else str "false"
  | .mapping m =>
    str "map[" ++ joinSep (str " ")
      ((List.insertionSort (fun a b => a.1 ≤ b.1) (SprintEntries m)).map
        (fun kv => kv.1 ++ str ":" ++ kv.2)) ++ str "]"
  | .sequence l => str "[" ++ joinSep (str " ") (SprintElems l) ++ str "]"
  | .other s => s
/-- The entries of a map, each value printed. -/
def SprintEntries : List (GoString × Value) → List (GoString × GoString)
  | [] => []
  | (k, v) :: rest => (k, Sprint v) :: SprintEntries rest
/-- The elements of a slice, each printed. -/
def SprintElems : List Value → List GoString
  | [] => []
  | v :: rest => Sprint v :: SprintElems rest
end

/-! ## Responses -/

/-- What the client receives once the handler has returned: the status code
(200 when the handler wrote a body, or nothing, without setting one) and the
body. -/
structure Response where
  status : Nat
  body : GoString
deriving DecidableEq

/-- The result of `contentType(req)`. -/
inductive ContentType where
  | ContentText
  | ContentJSON
deriving DecidableEq

/-- The magic keys, in the order they are tried. -/
def MAGIC_ARRAY_KEYS : List GoString := [str "name", str "uuid"]

/-- The string put in `out[i]` for the entry `k, vv` of a map. -/
def mappingLine (k : GoString) (vv : Value) : GoString :=
  if isMap vv || isArray vv then QueryEscape k ++ str "/\n"
  else QueryEscape k ++ str "\n"

/-- How the loop over `MAGIC_ARRAY_KEYS` ends for one element. -/
inductive MagicResult where
  | absent
  | line (s : GoString)
  | panic
deriving DecidableEq

/-- The loop `for _, magicKey := range MAGIC_ARRAY_KEYS` for element `k` with
entries `vvMap`: the first key that is present decides; its value is asserted
to be a string (`name.(string)`), which panics for any other value. -/
def magicLine (k : Nat) (vvMap : List (GoString × Value)) : List GoString → MagicResult
  | [] => .absent
  | magicKey :: rest =>
    match vvMap.lookup magicKey with
    | some name =>
      match name with
      | .string s => .line (decimal k ++ str "=" ++ QueryEscape s ++ str "\n")
      | _ => .panic
    | none => magicLine k vvMap rest

/-- The line written for element `k` of a slice; `none` when the element makes
the handler panic. -/
def sequenceLine (k : Nat) (vv : Value) : Option GoString :=
  let tail := if isMap vv || isArray vv then decimal k ++ str "/\n" else decimal k ++ str "\n"
  match vv with
  | .mapping vvMap =>
    match magicLine k vvMap MAGIC_ARRAY_KEYS with
    | .line s => some s
    | .panic => none
    | .absent => some tail
  | _ => some tail

/-- The loop `for k, vv := range v` over a slice, from index `k` on: the lines
written, or `none` when an element makes the handler panic. -/
def sequenceLines : Nat → List Value → Option (List GoString)
  | _, [] => some []
  | k, vv :: rest =>
    match sequenceLine k vv with
    | none => none
    | some line =>
      match sequenceLines (k + 1) rest with
      | none => none
      | some lines => some (line :: lines)

/-- The function `respondText` on a fresh response writer: the response, or
`none` when the handler panics (what it wrote before is then not sent).
Writing a body without setting a status gives 200; `http.Error` sets the
status and writes the message and a newline. -/
def respondText : Value → Option Response
  | .null => some ⟨200, []⟩
  | .string s => some ⟨200, s⟩
  | .number s => some ⟨200, s⟩
  | .int n => some ⟨200, decimalInt n⟩
  | .float64 f => some ⟨200, TrimRight (TrimRight f.fmtF (str "0")) (str ".")⟩
  | .bool b => some ⟨200, if b then str "true" else str "false"⟩
  | .mapping m =>
    some ⟨200, (sortStrings (m.map (fun kv => mappingLine kv.1 kv.2))).flatten⟩
  | .sequence l =>
    match sequenceLines 0 l with
    | none => none
    | some lines => some ⟨200, lines.flatten⟩
  | .other _ => some ⟨500, str "Value is of a type I don't know how to handle\n"⟩

/-! ## The snapshot, the clock and the collaborators -/

/-- The published snapshot: a map from version identifier to the root value of
that version. -/
abbrev Answers := List (GoString × Value)

/-- Modelled from the spec: the method `Versions` of the snapshot (package
`content`, not part of the sources at hand) returns the version identifiers,
that is the keys of the snapshot. -/
def Versions (answers : Answers) : List GoString :=
  answers.map Prod.fst

/-- The constant `time.Second`; a `time.Duration` is a count of nanoseconds,
an integer. -/
def Second : Int := 1000000000

/-- The constant `time.Minute`. -/
def Minute : Int := 60 * Second

/-- A product of 64-bit integers, wrapped to the `int64` range. -/
def wrapInt64 (x : Int) : Int :=
  (x + 2 ^ 63) % 2 ^ 64 - 2 ^ 63

/-- The routines the handler calls and that are not part of the sources at
hand: the path resolver `Matching` of the snapshot (package `content`),
`json.Marshal` (an error carries its message) and `strconv.Quote`, which
`EscapeError.Error` uses. The handler only passes their results on. -/
structure Deps where
  Matching : Answers → GoString → GoString → List GoString → Value × Bool
  jsonMarshal : Value → Except GoString GoString
  strconvQuote : GoString → GoString

/-- What one pass of the wait loop observes: the snapshot `sc.answers()`
returns and the time elapsed since `start`, `time.Now().Sub(start)`. -/
structure Obs where
  answers : Answers
  elapsed : Int

/-! ## `lookupAnswer` -/

/-- The two clamps applied to `maxWait` before the wait loop. -/
def clampMaxWait (maxWait : Int) : Int :=
  let maxWait := if maxWait = 0 then Minute else maxWait
  if maxWait > 2 * Minute then 2 * Minute else maxWait

/-- One pass of the wait loop after the lookup gave `(val, ok)`: `some` result
when the pass returns, `none` when it goes on to wait on the condition
variable. -/
def waitIteration (val : Value) (ok : Bool) (elapsed maxWait : Int)
    (oldValue : GoString) : Option (Value × Bool) :=
  if elapsed > maxWait then some (val, ok)
  else if ok && decide (Sprint val ≠ oldValue) then some (val, ok)
  else none

/-- The wait loop, one pass per observation (the first pass and one more for
every wake-up): the result of the first pass that returns, `none` when no
pass of the observed ones returns (the request is still blocked). -/
def waitLoop (d : Deps) (oldValue version ip : GoString) (path : List GoString)
    (maxWait : Int) : List Obs → Option (Value × Bool)
  | [] => none
  | o :: later =>
    match waitIteration (d.Matching o.answers version ip path).1
        (d.Matching o.answers version ip path).2 o.elapsed maxWait oldValue with
    | some r => some r
    | none => waitLoop d oldValue version ip path maxWait later

/-- The method `lookupAnswer`: an immediate lookup against the current
snapshot, or the wait loop with the clamped timeout. `o` is what the first
read of the snapshot observes and `later` what the passes after each wake-up
observe. -/
def lookupAnswer (d : Deps) (wait : Bool) (oldValue version ip : GoString)
    (path : List GoString) (maxWait : Int) (o : Obs) (later : List Obs) :
    Option (Value × Bool) :=
  if !wait then some (d.Matching o.answers version ip path)
  else waitLoop d oldValue version ip path (clampMaxWait maxWait) (o :: later)

/-! ## Responders -/

/-- The map `obj` that `respondError` builds. -/
def errorObj (msg : GoString) (statusCode : Nat) : Value :=
  .mapping [(str "message", .string msg), (str "type", .string (str "error")),
    (str "code", .int statusCode)]

/-- The function `respondError` on a fresh response writer; `http.Error` sets
the status and writes the message and a newline. -/
def respondError (d : Deps) (ct : ContentType) (msg : GoString) (statusCode : Nat) :
    Response :=
  match ct with
  | .ContentText => ⟨statusCode, msg ++ str "\n"⟩
  | .ContentJSON =>
    match d.jsonMarshal (errorObj msg statusCode) with
    | .ok bytes => ⟨statusCode, bytes ++ str "\n"⟩
    | .error _ =>
      ⟨500, str "\x7b\"type\": \"error\", \"message\": \"JSON marshal error\"\x7d\n"⟩

/-- The function `respondJSON`: the encoder writes the encoding and a newline,
or nothing when it fails. -/
def respondJSON (d : Deps) (val : Value) : Response :=
  match d.jsonMarshal val with
  | .ok bytes => ⟨200, bytes ++ str "\n"⟩
  | .error e => respondError d .ContentJSON (str "Error serializing to JSON: " ++ e) 500

/-- The function `respondSuccess`; `none` when the text renderer panics. -/
def respondSuccess (d : Deps) (ct : ContentType) (val : Value) : Option Response :=
  match ct with
  | .ContentText => respondText val
  | .ContentJSON => some (respondJSON d val)

/-! ## The handler `metadata` -/

/-- The part of a request the handler reads: the route variables `version` and
`oldValue`, whether the route is the one named `Wait`, the integer read from
the query parameter `maxWait`, `req.URL.EscapedPath()`, the negotiated content
type and the client address. -/
structure Request where
  version : GoString
  wait : Bool
  oldValue : GoString
  maxWait : Int
  escapedPath : GoString
  contentType : ContentType
  clientIp : GoString

/-- How a run of the handler ends. -/
inductive Outcome where
  | responded (r : Response)
  | panicked
  | blocked

/-- A run of the handler: the arguments of its call of `lookupAnswer` (version
and decoded path) when it makes one, and how it ends. -/
structure Result where
  lookup : Option (GoString × List GoString)
  outcome : Outcome

/-- The version the handler goes on with: the requested one when it is a key
of the snapshot, the greatest key found by the loop over `Versions()` when it
is not and is `latest`, and `none` (the `Invalid version` error) otherwise. -/
def pickVersion (answers : Answers) (version : GoString) : Option GoString :=
  if (answers.lookup version).isSome then some version
  else if version = str "latest" then
    some ((Versions answers).foldl (fun version k => if k > version then k else version) [])
  else none

/-- The loop that decodes the path segments in place; it stops at the first
segment `url.QueryUnescape` rejects. -/
def decodeSegments : List GoString → Except GoString (List GoString)
  | [] => .ok []
  | s :: rest =>
    match QueryUnescape s with
    | .error e => .error e
    | .ok k =>
      match decodeSegments rest with
      | .error e => .error e
      | .ok ks => .ok (k :: ks)

/-- The text of an `EscapeError`, `err.Error()`. -/
def escapeErrorText (d : Deps) (e : GoString) : GoString :=
  str "invalid URL escape " ++ d.strconvQuote e

/-- The segments after the version: `strings.Split(strings.TrimRight(p, "/"),
"/")[1:]` for `p` the escaped path without its first byte. -/
def pathSegments (p : GoString) : List GoString :=
  (splitSlash (TrimRight p (str "/"))).drop 1

/-- The handler `metadata`. `answers` is the snapshot its first read returns;
`o` and `later` are what `lookupAnswer` observes. The slice expression
`req.URL.EscapedPath()[1:]` panics on an empty path; `maxWait` seconds are
turned into a duration by a 64-bit product. -/
def metadata (d : Deps) (answers : Answers) (o : Obs) (later : List Obs)
    (req : Request) : Result :=
  match pickVersion answers req.version with
  | none => ⟨none, .responded (respondError d req.contentType (str "Invalid version") 404)⟩
  | some version =>
    match req.escapedPath with
    | [] => ⟨none, .panicked⟩
    | _ :: p =>
      match decodeSegments (pathSegments p) with
      | .error e =>
        ⟨none, .responded (respondError d req.contentType (escapeErrorText d e) 400)⟩
      | .ok segs =>
        match lookupAnswer d req.wait req.oldValue version req.clientIp segs
            (wrapInt64 (req.maxWait * Second)) o later with
        | none => ⟨some (version, segs), .blocked⟩
        | some (val, ok) =>
          if ok then
            match respondSuccess d req.contentType val with
            | some r => ⟨some (version, segs), .responded r⟩
            | none => ⟨some (version, segs), .panicked⟩
          else
            ⟨some (version, segs),
              .responded (respondError d req.contentType (str "Not found") 404)⟩

/-! ## Statements of the listing rules -/

/-- The listing rule for element `i` of a slice, as the specification words
it: `line` is `<i>=` and the escaped value of `name`, or of `uuid` when `name`
is absent, for a map holding such a key with a string value; `<i>/` for a map
holding neither key and for a slice; the bare index for anything else. -/
def SequenceLineSpec (i : Nat) (e : Value) (line : GoString) : Prop :=
  match e with
  | .mapping m =>
    (∃ s, m.lookup (str "name") = some (.string s) ∧
      line = decimal i ++ str "=" ++ QueryEscape s ++ str "\n") ∨
    (m.lookup (str "name") = none ∧ ∃ s, m.lookup (str "uuid") = some (.string s) ∧
      line = decimal i ++ str "=" ++ QueryEscape s ++ str "\n") ∨
    (m.lookup (str "name") = none ∧ m.lookup (str "uuid") = none ∧
      line = decimal i ++ str "/\n")
  | .sequence _ => line = decimal i ++ str "/\n"
  | _ => line = decimal i ++ str "\n"

/-- Every magic key present in a map element of the slice has a string
value. -/
def MagicValuesAreStrings (l : List Value) : Prop :=
  ∀ e ∈ l, ∀ m, e = Value.mapping m → ∀ key ∈ MAGIC_ARRAY_KEYS, ∀ v,
    m.lookup key = some v → ∃ s, v = Value.string s

/-- A decimal digit. -/
def isDigit (c : Byte) : Bool :=
  48 ≤ c.val && c.val ≤ 57

/-- The first magic key present in the map `m`, `name` before `uuid`, has a
value that is not a string. -/
def FirstMagicKeyNotString (m : List (GoString × Value)) : Prop :=
  (∃ v, m.lookup (str "name") = some v ∧ ∀ s, v ≠ Value.string s) ∨
  (m.lookup (str "name") = none ∧
    ∃ v, m.lookup (str "uuid") = some v ∧ ∀ s, v ≠ Value.string s)

/-! ## Collaborators for the examples -/

/-- Collaborators used in the examples: a resolver that resolves the empty
path to the root of the version and finds nothing else, an encoder that
encodes every value as the empty text, and a quoting that adds nothing. The
examples are in text mode and never reach the last two. -/
def rootDeps : Deps where
  Matching := fun answers version _ path =>
    match answers.lookup version, path with
    | some root, [] => (root, true)
    | _, _ => (Value.null, false)
  jsonMarshal := fun _ => .ok []
  strconvQuote := fun s => s

/-! # Theorems -/

/-! ## The order on strings -/

/-- The empty string is below every other string. -/
theorem goString_nil_lt_cons (b : Byte) (t : GoString) : ([] : GoString) < b :: t :=
  List.nil_lt_cons b t

/-- Two non-empty strings compare by their first bytes, and by the rest when
those are equal: the byte-wise order of Go. -/
theorem goString_cons_lt_cons (a b : Byte) (s t : GoString) :
    a :: s < b :: t ↔ a < b ∨ (a = b ∧ s < t) := by
  constructor
  · intro h
    cases h with
    | cons h' => exact Or.inr ⟨rfl, h'⟩
    | rel h' => exact Or.inl h'
  · rintro (h | ⟨rfl, h⟩)
    · exact List.Lex.rel h
    · exact List.Lex.cons h

/-! ## Listing of a map -/

theorem mappingLine_eq (k : GoString) (vv : Value) :
    mappingLine k vv = QueryEscape k ++
      (match vv with
        | .mapping _ => str "/\n"
        | .sequence _ => str "/\n"
        | _ => str "\n") := by
  cases vv <;> simp [mappingLine, isMap, isArray]

theorem sortStrings_perm (out : List GoString) : (sortStrings out).Perm out :=
  List.perm_insertionSort _ out

theorem sortStrings_sorted (out : List GoString) :
    List.Sorted (fun a b => a ≤ b) (sortStrings out) :=
  List.sorted_insertionSort (fun a b : GoString => a ≤ b) out

theorem sortStrings_eq_of_perm {a b : List GoString} (h : a.Perm b) :
    sortStrings a = sortStrings b :=
  List.eq_of_perm_of_sorted
    (((sortStrings_perm a).trans h).trans (sortStrings_perm b).symm)
    (sortStrings_sorted a) (sortStrings_sorted b)

/-- C1. `respondText` on a map writes one line per entry: the escaped key,
then `/` when the value is a map or a slice, then a newline. The lines come
out in ascending byte-wise order of the whole line, so every iteration order
of the same map gives the same response. -/
theorem respondText_mapping_listing (m : List (GoString × Value)) :
    ∃ lines : List GoString,
      respondText (.mapping m) = some ⟨200, lines.flatten⟩ ∧
      lines.Perm (m.map fun kv => QueryEscape kv.1 ++
        (match kv.2 with
          | .mapping _ => str "/\n"
          | .sequence _ => str "/\n"
          | _ => str "\n")) ∧
      List.Sorted (fun a b => a ≤ b) lines ∧
      ∀ m' : List (GoString × Value), m'.Perm m →
        respondText (.mapping m') = respondText (.mapping m) := by
  refine ⟨sortStrings (m.map fun kv : GoString × Value => mappingLine kv.1 kv.2), rfl, ?_,
    sortStrings_sorted _, ?_⟩
  · have h := sortStrings_perm (m.map fun kv : GoString × Value => mappingLine kv.1 kv.2)
    have e : (m.map fun kv : GoString × Value => mappingLine kv.1 kv.2) =
        m.map fun kv => QueryEscape kv.1 ++
        (match kv.2 with
          | .mapping _ => str "/\n"
          | .sequence _ => str "/\n"
          | _ => str "\n") :=
      List.map_congr_left (fun kv _ => mappingLine_eq kv.1 kv.2)
    exact e ▸ h
  · intro m' hp
    simp only [respondText]
    rw [sortStrings_eq_of_perm (hp.map _)]

/-! ## Listing of a slice -/

theorem sequenceLine_spec (k : Nat) (vv : Value)
    (h : ∀ m, vv = Value.mapping m → ∀ key ∈ MAGIC_ARRAY_KEYS, ∀ v,
      m.lookup key = some v → ∃ s, v = Value.string s) :
    ∃ line, sequenceLine k vv = some line ∧ SequenceLineSpec k vv line := by
  cases vv with
  | mapping m =>
    have hn := h m rfl (str "name") (by simp [MAGIC_ARRAY_KEYS])
    have hu := h m rfl (str "uuid") (by simp [MAGIC_ARRAY_KEYS])
    simp only [sequenceLine, MAGIC_ARRAY_KEYS, magicLine, SequenceLineSpec]
    cases hl : m.lookup (str "name") with
    | some v =>
      obtain ⟨s, rfl⟩ := hn v hl
      exact ⟨_, rfl, Or.inl ⟨s, rfl, rfl⟩⟩
    | none =>
      cases hl2 : m.lookup (str "uuid") with
      | some v =>
        obtain ⟨s, rfl⟩ := hu v hl2
        exact ⟨_, rfl, Or.inr (Or.inl ⟨rfl, s, rfl, rfl⟩)⟩
      | none =>
        exact ⟨_, rfl, Or.inr (Or.inr ⟨rfl, rfl, by simp [isMap]⟩)⟩
  | sequence l => exact ⟨_, rfl, by simp [SequenceLineSpec, isMap, isArray]⟩
  | null => exact ⟨_, rfl, by simp [SequenceLineSpec, isMap, isArray]⟩
  | string s => exact ⟨_, rfl, by simp [SequenceLineSpec, isMap, isArray]⟩
  | number s => exact ⟨_, rfl, by simp [SequenceLineSpec, isMap, isArray]⟩
  | int n => exact ⟨_, rfl, by simp [SequenceLineSpec, isMap, isArray]⟩
  | float64 f => exact ⟨_, rfl, by simp [SequenceLineSpec, isMap, isArray]⟩
  | bool b => exact ⟨_, rfl, by simp [SequenceLineSpec, isMap, isArray]⟩
  | other s => exact ⟨_, rfl, by simp [SequenceLineSpec, isMap, isArray]⟩

theorem sequenceLines_spec (l : List Value) :
    ∀ k : Nat, MagicValuesAreStrings l →
      ∃ lines, sequenceLines k l = some lines ∧ lines.length = l.length ∧
        ∀ i e, l[i]? = some e → ∃ line, lines[i]? = some line ∧
          SequenceLineSpec (k + i) e line := by
  induction l with
  | nil =>
    intro k _
    exact ⟨[], rfl, rfl, by simp⟩
  | cons vv rest ih =>
    intro k h
    obtain ⟨line, hline, hspec⟩ :=
      sequenceLine_spec k vv (fun m hm => h vv (List.mem_cons_self _ _) m hm)
    obtain ⟨lines, hlines, hlen, hall⟩ :=
      ih (k + 1) (fun e he => h e (List.mem_cons_of_mem _ he))
    refine ⟨line :: lines, by simp [sequenceLines, hline, hlines], by simp [hlen], ?_⟩
    intro i e hi
    cases i with
    | zero =>
      simp at hi
      subst hi
      exact ⟨line, by simp, hspec⟩
    | succ j =>
      simp at hi
      obtain ⟨ln, h1, h2⟩ := hall j e hi
      refine ⟨ln, by simpa using h1, ?_⟩
      have : k + (j + 1) = k + 1 + j := by omega
      rw [this]
      exact h2

/-- C2. For a slice in which every magic key (`name`, `uuid`) present in a
map element has a string value, `respondText` answers 200 with one line per
element, in index order, each as the listing rule `SequenceLineSpec` says:
`<i>=` and the escaped `name` (or `uuid` when there is no `name`), `<i>/` for
any other map and for a slice, the bare `<i>` otherwise. -/
theorem respondText_sequence_listing (l : List Value) (h : MagicValuesAreStrings l) :
    ∃ lines : List GoString,
      respondText (.sequence l) = some ⟨200, lines.flatten⟩ ∧
      lines.length = l.length ∧
      ∀ i e, l[i]? = some e → ∃ line, lines[i]? = some line ∧
        SequenceLineSpec i e line := by
  obtain ⟨lines, hlines, hlen, hall⟩ := sequenceLines_spec l 0 h
  refine ⟨lines, by simp [respondText, hlines], hlen, ?_⟩
  intro i e hi
  obtain ⟨ln, h1, h2⟩ := hall i e hi
  exact ⟨ln, h1, by simpa using h2⟩

/-- C2 at a concrete slice: a scalar, a map with both magic keys, a map with
neither, a nested slice. -/
theorem respondText_sequence_listing_witness :
    ∃ lines : List GoString,
      respondText (.sequence [.int 7,
          .mapping [(str "uuid", .string (str "u 1")), (str "name", .string (str "a/b"))],
          .mapping [(str "state", .string (str "up"))],
          .sequence []]) = some ⟨200, lines.flatten⟩ ∧
      lines.length = 4 ∧
      lines.flatten = str "0\n1=a%2Fb\n2/\n3/\n" := by
  obtain ⟨lines, h1, h2, _⟩ := respondText_sequence_listing [.int 7,
      .mapping [(str "uuid", .string (str "u 1")), (str "name", .string (str "a/b"))],
      .mapping [(str "state", .string (str "up"))],
      .sequence []]
    (by
      intro e he m hm key hkey v hv
      simp only [List.mem_cons, List.mem_singleton, List.not_mem_nil, or_false] at he
      simp only [MAGIC_ARRAY_KEYS, List.mem_cons, List.mem_singleton, List.not_mem_nil,
        or_false] at hkey
      rcases he with rfl | rfl | rfl | rfl
      · cases hm
      · cases hm
        rcases hkey with rfl | rfl
        · have h0 : List.lookup (str "name") [(str "uuid", Value.string (str "u 1")),
              (str "name", Value.string (str "a/b"))] = some (.string (str "a/b")) := rfl
          rw [h0] at hv
          cases hv
          exact ⟨_, rfl⟩
        · have h0 : List.lookup (str "uuid") [(str "uuid", Value.string (str "u 1")),
              (str "name", Value.string (str "a/b"))] = some (.string (str "u 1")) := rfl
          rw [h0] at hv
          cases hv
          exact ⟨_, rfl⟩
      · cases hm
        rcases hkey with rfl | rfl
        · have h0 : List.lookup (str "name")
              [(str "state", Value.string (str "up"))] = none := rfl
          rw [h0] at hv
          cases hv
        · have h0 : List.lookup (str "uuid")
              [(str "state", Value.string (str "up"))] = none := rfl
          rw [h0] at hv
          cases hv
      · cases hm)
  refine ⟨lines, h1, h2, ?_⟩
  have h3 : respondText (.sequence [.int 7,
      .mapping [(str "uuid", .string (str "u 1")), (str "name", .string (str "a/b"))],
      .mapping [(str "state", .string (str "up"))],
      .sequence []]) = some ⟨200, str "0\n1=a%2Fb\n2/\n3/\n"⟩ := by decide
  rw [h3] at h1
  simp only [Option.some.injEq, Response.mk.injEq, true_and] at h1
  exact h1.symm

/-! ## Query escaping round trip -/

set_option maxRecDepth 100000 in
theorem escapeByte_hex (c : Byte) :
    ishex (upperhex.getD (c.val >>> 4) 0) = true ∧
    ishex (upperhex.getD (c.val &&& 15) 0) = true ∧
    (Fin.ofNat ((unhex (upperhex.getD (c.val >>> 4) 0) <<< 4) |||
      unhex (upperhex.getD (c.val &&& 15) 0)) : Byte) = c := by
  revert c
  decide

set_option maxRecDepth 100000 in
theorem shouldEscape_false (c : Byte) : shouldEscape c = false → c ≠ 37 ∧ c ≠ 43 := by
  revert c
  decide

theorem QueryUnescape_cons_plain (c : Byte) (t t' : GoString) (h37 : c ≠ 37)
    (h : QueryUnescape t = .ok t') :
    QueryUnescape (c :: t) = .ok ((if c = 43 then 32 else c) :: t') := by
  unfold QueryUnescape
  rw [if_neg h37, h]

theorem QueryUnescape_cons_hex (h1 h2 : Byte) (t t' : GoString)
    (e1 : ishex h1 = true) (e2 : ishex h2 = true) (h : QueryUnescape t = .ok t') :
    QueryUnescape (37 :: h1 :: h2 :: t) =
      .ok (Fin.ofNat ((unhex h1 <<< 4) ||| unhex h2) :: t') := by
  unfold QueryUnescape
  simp [e1, e2, h]

theorem QueryUnescape_escapeByte (c : Byte) (t t' : GoString)
    (h : QueryUnescape t = .ok t') :
    QueryUnescape (escapeByte c ++ t) = .ok (c :: t') := by
  unfold escapeByte
  by_cases h32 : c = 32
  · subst h32
    rw [if_pos rfl]
    exact QueryUnescape_cons_plain 43 t t' (by decide) h
  · rw [if_neg h32]
    by_cases hs : shouldEscape c = true
    · rw [if_pos hs]
      obtain ⟨h1, h2, h3⟩ := escapeByte_hex c
      have := QueryUnescape_cons_hex _ _ t t' h1 h2 h
      rw [h3] at this
      exact this
    · rw [if_neg hs]
      obtain ⟨h37, h43⟩ := shouldEscape_false c (by simpa using hs)
      have := QueryUnescape_cons_plain c t t' h37 h
      rw [if_neg h43] at this
      exact this

theorem QueryUnescape_QueryEscape (k : GoString) :
    QueryUnescape (QueryEscape k) = .ok k := by
  induction k with
  | nil => rfl
  | cons c rest ih =>
    have : QueryEscape (c :: rest) = escapeByte c ++ QueryEscape rest := by
      simp [QueryEscape]
    rw [this]
    exact QueryUnescape_escapeByte c _ _ ih

/-- C8. A name shown by a text listing decodes back to the key it stands for:
`url.QueryUnescape(url.QueryEscape(k))` returns `k` and no error, for every
string `k`; so the handler decodes a path made of listed names to the keys
themselves. -/
theorem listed_name_decodes (k : GoString) :
    QueryUnescape (QueryEscape k) = .ok k ∧
    ∀ ks : List GoString, decodeSegments (ks.map QueryEscape) = .ok ks := by
  refine ⟨QueryUnescape_QueryEscape k, ?_⟩
  intro ks
  induction ks with
  | nil => rfl
  | cons a rest ih => simp [decodeSegments, QueryUnescape_QueryEscape, ih]

/-- C9, refuted as stated: the segment `a%20b` decodes to the key `a b`, which
the listing encodes as `a+b`; the segment `%2f` decodes to `/`, encoded as
`%2F`; the segment `%41` decodes to `A`, encoded as `A`. -/
theorem decode_then_encode_differs :
    (QueryUnescape (str "a%20b") = .ok (str "a b") ∧
      QueryEscape (str "a b") = str "a+b" ∧ str "a+b" ≠ str "a%20b") ∧
    (QueryUnescape (str "%2f") = .ok (str "/") ∧
      QueryEscape (str "/") = str "%2F" ∧ str "%2F" ≠ str "%2f") ∧
    (QueryUnescape (str "%41") = .ok (str "A") ∧
      QueryEscape (str "A") = str "A" ∧ str "A" ≠ str "%41") := by
  refine ⟨⟨rfl, by decide, by decide⟩, ⟨rfl, by decide, by decide⟩, ⟨rfl, by decide, by decide⟩⟩

/-- C9, amended. For a path segment `s` that decodes to the key `k`, encoding
`k` the way the listing does gives back `s` exactly when `s` is itself such
an encoding (`s = url.QueryEscape(k0)` for some `k0`); whatever the segment,
the encoded key decodes to `k` again. -/
theorem encode_decoded_segment (s k : GoString) (h : QueryUnescape s = .ok k) :
    (QueryEscape k = s ↔ ∃ k0, s = QueryEscape k0) ∧
    QueryUnescape (QueryEscape k) = .ok k := by
  refine ⟨⟨fun e => ⟨k, e.symm⟩, ?_⟩, QueryUnescape_QueryEscape k⟩
  rintro ⟨k0, rfl⟩
  rw [QueryUnescape_QueryEscape] at h
  cases h
  rfl

/-- C9 amended, at the segment `a+b%2Fc`, which is the listed name of the key
`a b/c`. -/
theorem encode_decoded_segment_witness :
    QueryUnescape (str "a+b%2Fc") = .ok (str "a b/c") ∧
    QueryEscape (str "a b/c") = str "a+b%2Fc" :=
  ⟨rfl, (encode_decoded_segment (str "a+b%2Fc") (str "a b/c") rfl).1.2
    ⟨str "a b/c", by decide⟩⟩

/-! ## Rendering of a float -/

theorem dropWhile_replicate_append (p : Byte → Bool) (c : Byte) (hc : p c = true)
    (k : Nat) (Y : GoString) :
    (List.replicate k c ++ Y).dropWhile p = Y.dropWhile p := by
  induction k with
  | zero => simp
  | succ n ih => simp [List.replicate_succ, List.dropWhile_cons, hc, ih]

theorem TrimRight_append_replicate (X : GoString) (c : Byte) (k : Nat) :
    TrimRight (X ++ List.replicate k c) [c] = TrimRight X [c] := by
  unfold TrimRight
  rw [List.reverse_append, List.reverse_replicate,
    dropWhile_replicate_append _ c (by simp) k]

theorem TrimRight_of_getLast (X cutset : GoString)
    (h : ∀ c, X.getLast? = some c → c ∉ cutset) : TrimRight X cutset = X := by
  unfold TrimRight
  rw [← List.head?_reverse] at h
  cases hr : X.reverse with
  | nil => simp [List.reverse_eq_nil_iff.mp hr]
  | cons a rest =>
    rw [hr] at h
    have ha : a ∉ cutset := h a rfl
    rw [List.dropWhile_cons, if_neg (by simpa using ha), ← hr, List.reverse_reverse]

/-- C10. For a float whose `%f` text is `I.FFFFFF` (`I` digits with an
optional sign, six fractional digits written here as `P` followed by `k`
zeros, `P` empty or ending in a non-zero digit), `respondText` writes `I`
alone when all six fractional digits are zero, and otherwise `I`, a `.` and
`P`, the fractional digits up to the last non-zero one; no digit of `I` is
removed. -/
theorem respondText_float64_trim (f : Float64) (I P : GoString) (k : Nat)
    (hform : f.fmtF = I ++ str "." ++ P ++ List.replicate k 48)
    (hlen : P.length + k = 6)
    (hI : I ≠ [] ∧ ∀ c ∈ I, isDigit c = true ∨ c = 45)
    (hP : ∀ c ∈ P, isDigit c = true)
    (hlast : ∀ c, P.getLast? = some c → c ≠ 48) :
    respondText (.float64 f) =
      some ⟨200, if P = [] then I else I ++ str "." ++ P⟩ := by
  have hdot : str "." = [46] := by decide
  have hzero : str "0" = [48] := by decide
  have h1 : TrimRight f.fmtF (str "0") = I ++ str "." ++ P := by
    rw [hform, hzero, TrimRight_append_replicate]
    apply TrimRight_of_getLast
    intro c hc
    cases P with
    | nil =>
      rw [hdot] at hc
      simp at hc
      subst hc
      decide
    | cons a rest =>
      rw [List.getLast?_append_of_ne_nil _ (by simp)] at hc
      simpa using hlast c hc
  have hIlast : ∀ c, I.getLast? = some c → c ∉ ([46] : GoString) := by
    intro c hc
    have hmem : c ∈ I := List.mem_of_getLast?_eq_some hc
    rcases hI.2 c hmem with hd | hd
    · intro h46
      simp at h46
      subst h46
      revert hd
      decide
    · subst hd
      decide
  simp only [respondText]
  rw [h1]
  cases P with
  | nil =>
    simp only [List.append_nil, if_true]
    rw [hdot]
    have := TrimRight_append_replicate I 46 1
    simp only [List.replicate_one] at this
    rw [this, TrimRight_of_getLast I [46] hIlast]
  | cons a rest =>
    rw [if_neg (by simp), hdot]
    rw [TrimRight_of_getLast]
    intro c hc
    rw [List.getLast?_append_of_ne_nil _ (by simp)] at hc
    have hmem : c ∈ a :: rest := List.mem_of_getLast?_eq_some hc
    have hd := hP c hmem
    intro h46
    simp at h46
    subst h46
    revert hd
    decide

set_option maxRecDepth 100000 in
/-- C10 at `1.500000`, with the other examples evaluated: `1.5`, `2`, `100`,
`0`. -/
theorem respondText_float64_trim_witness :
    respondText (.float64 ⟨str "1.500000", str "1.5"⟩) = some ⟨200, str "1.5"⟩ ∧
    respondText (.float64 ⟨str "2.000000", str "2"⟩) = some ⟨200, str "2"⟩ ∧
    respondText (.float64 ⟨str "100.000000", str "100"⟩) = some ⟨200, str "100"⟩ ∧
    respondText (.float64 ⟨str "0.000000", str "0"⟩) = some ⟨200, str "0"⟩ :=
  ⟨respondText_float64_trim ⟨str "1.500000", str "1.5"⟩ (str "1") (str "5") 5
      (by decide) (by decide) (by decide) (by decide) (by decide),
    by decide, by decide, by decide⟩

/-! ## The timeout and one pass of the wait loop -/

/-- C6. In wait mode `lookupAnswer` runs the wait loop with the clamped
timeout: 60 seconds for a zero `maxWait`, 120 seconds for one above 120
seconds, `maxWait` itself otherwise; clamping twice is clamping once. -/
theorem lookupAnswer_timeout_clamp (d : Deps) (oldValue version ip : GoString)
    (path : List GoString) (maxWait : Int) (o : Obs) (later : List Obs) :
    lookupAnswer d true oldValue version ip path maxWait o later =
      waitLoop d oldValue version ip path (clampMaxWait maxWait) (o :: later) ∧
    (maxWait = 0 → clampMaxWait maxWait = 60 * 1000000000) ∧
    (maxWait > 120 * 1000000000 → clampMaxWait maxWait = 120 * 1000000000) ∧
    (maxWait ≠ 0 → maxWait ≤ 120 * 1000000000 → clampMaxWait maxWait = maxWait) ∧
    clampMaxWait (clampMaxWait maxWait) = clampMaxWait maxWait := by
  refine ⟨rfl, ?_, ?_, ?_, ?_⟩
  · intro h
    subst h
    decide
  · intro h
    simp only [clampMaxWait, Minute, Second]
    split_ifs <;> omega
  · intro h0 h
    simp only [clampMaxWait, Minute, Second]
    split_ifs <;> omega
  · simp only [clampMaxWait, Minute, Second]
    split_ifs <;> omega

theorem waitIteration_eq_some_iff (val : Value) (ok : Bool) (elapsed maxWait : Int)
    (oldValue : GoString) :
    waitIteration val ok elapsed maxWait oldValue = some (val, ok) ↔
      (elapsed > maxWait ∨ (ok = true ∧ Sprint val ≠ oldValue)) := by
  unfold waitIteration
  by_cases h1 : elapsed > maxWait
  · simp [h1]
  · by_cases h2 : ok = true ∧ Sprint val ≠ oldValue
    · simp [h1, h2]
    · rw [if_neg h1]
      have : (ok && decide (Sprint val ≠ oldValue)) = false := by
        cases ok <;> simp_all
      simp [this, h1, h2]

theorem waitIteration_eq_none_iff (val : Value) (ok : Bool) (elapsed maxWait : Int)
    (oldValue : GoString) :
    waitIteration val ok elapsed maxWait oldValue = none ↔
      ¬ (elapsed > maxWait ∨ (ok = true ∧ Sprint val ≠ oldValue)) := by
  rw [← waitIteration_eq_some_iff]
  unfold waitIteration
  split_ifs <;> simp

/-- C5. One pass of the wait loop, with `(val, ok)` the result of `Matching`
on the snapshot the pass reads: the pass returns exactly when the elapsed time
exceeds the timeout, or `ok` holds and `fmt.Sprint(val)` differs from
`oldValue`; it then returns `(val, ok)`; otherwise the loop goes on with the
next wake-up. So a not-found result, and a found value whose comparable form
equals `oldValue`, are not returned while the elapsed time is within the
timeout. -/
theorem waitLoop_pass (d : Deps) (oldValue version ip : GoString)
    (path : List GoString) (maxWait : Int) (o : Obs) (later : List Obs) :
    ((o.elapsed > maxWait ∨ ((d.Matching o.answers version ip path).2 = true ∧
          Sprint (d.Matching o.answers version ip path).1 ≠ oldValue)) →
      waitLoop d oldValue version ip path maxWait (o :: later) =
        some (d.Matching o.answers version ip path)) ∧
    (¬ (o.elapsed > maxWait ∨ ((d.Matching o.answers version ip path).2 = true ∧
          Sprint (d.Matching o.answers version ip path).1 ≠ oldValue)) →
      waitLoop d oldValue version ip path maxWait (o :: later) =
        waitLoop d oldValue version ip path maxWait later) ∧
    (∀ (val : Value) (ok : Bool) (elapsed : Int),
      (waitIteration val ok elapsed maxWait oldValue = some (val, ok) ↔
        (elapsed > maxWait ∨ (ok = true ∧ Sprint val ≠ oldValue))) ∧
      (waitIteration val ok elapsed maxWait oldValue = none ↔
        ¬ (elapsed > maxWait ∨ (ok = true ∧ Sprint val ≠ oldValue))) ∧
      (ok = false → elapsed ≤ maxWait →
        waitIteration val ok elapsed maxWait oldValue = none) ∧
      (ok = true → Sprint val = oldValue → elapsed ≤ maxWait →
        waitIteration val ok elapsed maxWait oldValue = none)) := by
  refine ⟨?_, ?_, ?_⟩
  · intro h
    have := (waitIteration_eq_some_iff _ _ o.elapsed maxWait oldValue).mpr h
    simp only [waitLoop, this]
  · intro h
    have := (waitIteration_eq_none_iff _ _ o.elapsed maxWait oldValue).mpr h
    simp only [waitLoop, this]
  · intro val ok elapsed
    refine ⟨waitIteration_eq_some_iff _ _ _ _ _, waitIteration_eq_none_iff _ _ _ _ _, ?_, ?_⟩
    · intro hok he
      apply (waitIteration_eq_none_iff _ _ _ _ _).mpr
      rintro (h | ⟨h, _⟩)
      · omega
      · rw [hok] at h; cases h
    · intro _ hs he
      apply (waitIteration_eq_none_iff _ _ _ _ _).mpr
      rintro (h | ⟨_, h⟩)
      · omega
      · exact h hs

/-! ## The version the handler looks up -/

theorem lookup_isSome_iff (answers : Answers) (version : GoString) :
    (answers.lookup version).isSome = true ↔ version ∈ Versions answers := by
  induction answers with
  | nil => simp [Versions]
  | cons a rest ih =>
    obtain ⟨k, v⟩ := a
    by_cases h : version = k
    · subst h
      simp [Versions, List.lookup]
    · have hb : (version == k) = false := by simpa using h
      simp only [List.lookup, hb]
      rw [ih]
      simp [Versions, h]

theorem foldl_greatest (ks : List GoString) :
    ∀ init : GoString,
      init ≤ ks.foldl (fun version k => if k > version then k else version) init ∧
      (∀ k ∈ ks, k ≤ ks.foldl (fun version k => if k > version then k else version) init) ∧
      (ks.foldl (fun version k => if k > version then k else version) init = init ∨
        ks.foldl (fun version k => if k > version then k else version) init ∈ ks) := by
  induction ks with
  | nil => intro init; simp
  | cons a rest ih =>
    intro init
    simp only [List.foldl_cons]
    obtain ⟨h1, h2, h3⟩ := ih (if a > init then a else init)
    have hinit : init ≤ (if a > init then a else init) := by
      split_ifs with h
      · exact le_of_lt h
      · exact le_refl _
    have ha : a ≤ (if a > init then a else init) := by
      split_ifs with h
      · exact le_refl _
      · exact not_lt.mp h
    refine ⟨le_trans hinit h1, ?_, ?_⟩
    · intro k hk
      rcases List.mem_cons.mp hk with rfl | hk
      · exact le_trans ha h1
      · exact h2 k hk
    · rcases h3 with h3 | h3
      · rw [h3]
        split_ifs with h
        · right; exact List.mem_cons_self _ _
        · left; rfl
      · right; exact List.mem_cons_of_mem _ h3

theorem nil_le (s : GoString) : ([] : GoString) ≤ s := by
  cases s with
  | nil => exact le_refl _
  | cons a t => exact le_of_lt (List.nil_lt_cons a t)

theorem latest_greatest (answers : Answers) :
    (∀ k ∈ Versions answers,
      k ≤ (Versions answers).foldl (fun version k => if k > version then k else version) []) ∧
    (answers ≠ [] →
      (Versions answers).foldl (fun version k => if k > version then k else version) []
        ∈ Versions answers) := by
  obtain ⟨_, h2, h3⟩ := foldl_greatest (Versions answers) []
  refine ⟨h2, ?_⟩
  intro hne
  rcases h3 with h3 | h3
  · cases answers with
    | nil => exact absurd rfl hne
    | cons a rest =>
      have hmem : a.1 ∈ Versions (a :: rest) := by simp [Versions]
      have hle := h2 a.1 hmem
      rw [h3] at hle ⊢
      have : a.1 = [] := le_antisymm hle (nil_le _)
      rw [← this]
      exact hmem
  · exact h3

theorem pickVersion_key (answers : Answers) (version : GoString)
    (h : version ∈ Versions answers) : pickVersion answers version = some version := by
  unfold pickVersion
  rw [if_pos ((lookup_isSome_iff answers version).mpr h)]

theorem pickVersion_latest (answers : Answers) (version : GoString)
    (h : version ∉ Versions answers) (hl : version = str "latest") :
    pickVersion answers version =
      some ((Versions answers).foldl (fun version k => if k > version then k else version) []) := by
  unfold pickVersion
  rw [if_neg (fun hc => h ((lookup_isSome_iff answers version).mp hc)), if_pos hl]

theorem pickVersion_other (answers : Answers) (version : GoString)
    (h : version ∉ Versions answers) (hl : version ≠ str "latest") :
    pickVersion answers version = none := by
  unfold pickVersion
  rw [if_neg (fun hc => h ((lookup_isSome_iff answers version).mp hc)), if_neg hl]

theorem metadata_invalid_version (d : Deps) (answers : Answers) (o : Obs) (later : List Obs)
    (req : Request) (h : pickVersion answers req.version = none) :
    metadata d answers o later req =
      ⟨none, .responded (respondError d req.contentType (str "Invalid version") 404)⟩ := by
  unfold metadata
  rw [h]

theorem metadata_lookup_version (d : Deps) (answers : Answers) (o : Obs) (later : List Obs)
    (req : Request) (version : GoString) (h : pickVersion answers req.version = some version)
    (v : GoString) (p : List GoString)
    (hl : (metadata d answers o later req).lookup = some (v, p)) : v = version := by
  unfold metadata at hl
  rw [h] at hl
  simp only at hl
  split at hl
  · cases hl
  · split at hl
    · cases hl
    · split at hl
      · cases hl; rfl
      · split at hl
        · split at hl <;> · cases hl; rfl
        · cases hl; rfl

theorem metadata_lookup_performed (d : Deps) (answers : Answers) (o : Obs) (later : List Obs)
    (req : Request) (version : GoString) (h : pickVersion answers req.version = some version)
    (c : Byte) (p : GoString) (segs : List GoString) (hp : req.escapedPath = c :: p)
    (hs : decodeSegments (pathSegments p) = .ok segs) :
    (metadata d answers o later req).lookup = some (version, segs) := by
  unfold metadata
  rw [h]
  simp only [hp, hs]
  split
  · rfl
  · split
    · split <;> rfl
    · rfl

/-- C4. The version the handler looks up: the requested one when it is a key
of the snapshot; when it is not a key and is `latest`, the greatest key under
byte-wise order (no key is greater, and it is a key when the snapshot is not
empty); for any other unknown version the handler answers with the
`Invalid version` error and makes no lookup. Whenever the version is accepted
and the path decodes, the lookup is made. -/
theorem metadata_version_choice (d : Deps) (answers : Answers) (o : Obs)
    (later : List Obs) (req : Request) :
    (req.version ∈ Versions answers → ∀ v p,
      (metadata d answers o later req).lookup = some (v, p) → v = req.version) ∧
    (req.version ∉ Versions answers → req.version = str "latest" → ∀ v p,
      (metadata d answers o later req).lookup = some (v, p) →
        (∀ k ∈ Versions answers, k ≤ v) ∧ (answers ≠ [] → v ∈ Versions answers)) ∧
    (req.version ∉ Versions answers → req.version ≠ str "latest" →
      (metadata d answers o later req).lookup = none ∧
      (metadata d answers o later req).outcome =
        .responded (respondError d req.contentType (str "Invalid version") 404)) ∧
    ((req.version ∈ Versions answers ∨ req.version = str "latest") →
      ∀ (c : Byte) (p : GoString) (segs : List GoString), req.escapedPath = c :: p →
        decodeSegments (pathSegments p) = .ok segs →
        ∃ v, (metadata d answers o later req).lookup = some (v, segs)) := by
  refine ⟨?_, ?_, ?_, ?_⟩
  · intro h v p hl
    exact metadata_lookup_version d answers o later req _ (pickVersion_key _ _ h) v p hl
  · intro h hlat v p hl
    have := metadata_lookup_version d answers o later req _
      (pickVersion_latest _ _ h hlat) v p hl
    rw [this]
    exact latest_greatest answers
  · intro h hlat
    rw [metadata_invalid_version d answers o later req (pickVersion_other _ _ h hlat)]
    exact ⟨rfl, rfl⟩
  · intro h c p segs hp hs
    by_cases hk : req.version ∈ Versions answers
    · exact ⟨_, metadata_lookup_performed d answers o later req _
        (pickVersion_key _ _ hk) c p segs hp hs⟩
    · rcases h with h | h
      · exact absurd h hk
      · exact ⟨_, metadata_lookup_performed d answers o later req _
          (pickVersion_latest _ _ hk h) c p segs hp hs⟩

/-! ## Waiting on an unchanged value -/

theorem waitLoop_within_timeout (d : Deps) (oldValue version ip : GoString)
    (path : List GoString) (maxWait : Int) (v : Value) (answers : Answers)
    (hfound : d.Matching answers version ip path = (v, true))
    (hsame : Sprint v = oldValue) (obs : List Obs)
    (h : ∀ ob ∈ obs, ob.answers = answers ∧ ob.elapsed ≤ maxWait) :
    waitLoop d oldValue version ip path maxWait obs = none := by
  induction obs with
  | nil => rfl
  | cons ob rest ih =>
    obtain ⟨ha, he⟩ := h ob (List.mem_cons_self _ _)
    have hn : waitIteration (d.Matching ob.answers version ip path).1
        (d.Matching ob.answers version ip path).2 ob.elapsed maxWait oldValue = none := by
      apply (waitIteration_eq_none_iff _ _ _ _ _).mpr
      rw [ha, hfound]
      rintro (h1 | ⟨_, h2⟩)
      · omega
      · exact h2 hsame
    simp only [waitLoop, hn]
    exact ih (fun x hx => h x (List.mem_cons_of_mem _ hx))

theorem waitLoop_after_timeout (d : Deps) (oldValue version ip : GoString)
    (path : List GoString) (maxWait : Int) (v : Value) (answers : Answers)
    (hfound : d.Matching answers version ip path = (v, true))
    (hsame : Sprint v = oldValue) (pre : List Obs) (ob : Obs) (later : List Obs)
    (h : ∀ x ∈ pre, x.answers = answers ∧ x.elapsed ≤ maxWait)
    (ha : ob.answers = answers) (he : ob.elapsed > maxWait) :
    waitLoop d oldValue version ip path maxWait (pre ++ ob :: later) = some (v, true) := by
  induction pre with
  | nil =>
    have hs : waitIteration (d.Matching ob.answers version ip path).1
        (d.Matching ob.answers version ip path).2 ob.elapsed maxWait oldValue =
        some ((d.Matching ob.answers version ip path).1,
          (d.Matching ob.answers version ip path).2) :=
      (waitIteration_eq_some_iff _ _ _ _ _).mpr (Or.inl he)
    simp only [List.nil_append, waitLoop, hs]
    rw [ha, hfound]
  | cons x rest ih =>
    obtain ⟨hxa, hxe⟩ := h x (List.mem_cons_self _ _)
    have hn : waitIteration (d.Matching x.answers version ip path).1
        (d.Matching x.answers version ip path).2 x.elapsed maxWait oldValue = none := by
      apply (waitIteration_eq_none_iff _ _ _ _ _).mpr
      rw [hxa, hfound]
      rintro (h1 | ⟨_, h2⟩)
      · omega
      · exact h2 hsame
    simp only [List.cons_append, waitLoop, hn]
    exact ih (fun y hy => h y (List.mem_cons_of_mem _ hy))

/-- C3, refuted as stated. With `oldValue` the text rendering of the value
found, the first pass of the wait loop returns at elapsed time 0, within the
timeout of 60 seconds, when the value is a map (`a\n` against `map[a:1]`), a
slice (`0\n` against `[x]`), nil (the empty text against `<nil>`) or the
float 1000000 (`1000000` against `1e+06`). -/
theorem wait_returns_before_timeout :
    (respondText (.mapping [(str "a", .string (str "1"))]) = some ⟨200, str "a\n"⟩ ∧
      lookupAnswer rootDeps true (str "a\n") (str "v1") (str "10.0.0.1") [] 0
        ⟨[(str "v1", .mapping [(str "a", .string (str "1"))])], 0⟩ [] =
        some (.mapping [(str "a", .string (str "1"))], true)) ∧
    (respondText (.sequence [.string (str "x")]) = some ⟨200, str "0\n"⟩ ∧
      lookupAnswer rootDeps true (str "0\n") (str "v1") (str "10.0.0.1") [] 0
        ⟨[(str "v1", .sequence [.string (str "x")])], 0⟩ [] =
        some (.sequence [.string (str "x")], true)) ∧
    (respondText .null = some ⟨200, str ""⟩ ∧
      lookupAnswer rootDeps true (str "") (str "v1") (str "10.0.0.1") [] 0
        ⟨[(str "v1", .null)], 0⟩ [] = some (.null, true)) ∧
    (respondText (.float64 ⟨str "1000000.000000", str "1e+06"⟩) =
        some ⟨200, str "1000000"⟩ ∧
      lookupAnswer rootDeps true (str "1000000") (str "v1") (str "10.0.0.1") [] 0
        ⟨[(str "v1", .float64 ⟨str "1000000.000000", str "1e+06"⟩)], 0⟩ [] =
        some (.float64 ⟨str "1000000.000000", str "1e+06"⟩, true)) ∧
    (0 : Int) ≤ clampMaxWait 0 := by
  refine ⟨⟨by decide, rfl⟩, ⟨by decide, rfl⟩, ⟨by decide, rfl⟩, ⟨by decide, rfl⟩, by decide⟩

/-- C3, amended. For a value `v` that is a string, a `json.Number`, an integer
or a bool, `fmt.Sprint(v)`, the form the wait loop compares with `oldValue`,
is the text `respondText` writes for `v`. So when `lookupAnswer` is called in
wait mode with `oldValue` that text and the snapshot does not change, no pass
returns while the elapsed time is at most the timeout, and the first pass
after it returns `v`. -/
theorem wait_on_unchanged_scalar (d : Deps) (v : Value)
    (hv : (∃ s, v = .string s) ∨ (∃ s, v = .number s) ∨ (∃ n, v = .int n) ∨
      (∃ b, v = .bool b))
    (answers : Answers) (version ip : GoString) (path : List GoString)
    (hfound : d.Matching answers version ip path = (v, true)) (maxWait : Int) :
    ∃ body, respondText v = some ⟨200, body⟩ ∧ Sprint v = body ∧
      (∀ o later, (∀ ob ∈ o :: later,
          ob.answers = answers ∧ ob.elapsed ≤ clampMaxWait maxWait) →
        lookupAnswer d true body version ip path maxWait o later = none) ∧
      (∀ o later pre ob rest, o :: later = pre ++ ob :: rest →
        (∀ x ∈ pre, x.answers = answers ∧ x.elapsed ≤ clampMaxWait maxWait) →
        ob.answers = answers → ob.elapsed > clampMaxWait maxWait →
        lookupAnswer d true body version ip path maxWait o later = some (v, true)) := by
  have hbody : ∃ body, respondText v = some ⟨200, body⟩ ∧ Sprint v = body := by
    rcases hv with ⟨s, rfl⟩ | ⟨s, rfl⟩ | ⟨n, rfl⟩ | ⟨b, rfl⟩
    · exact ⟨s, rfl, rfl⟩
    · exact ⟨s, rfl, rfl⟩
    · exact ⟨decimalInt n, rfl, rfl⟩
    · exact ⟨if b then str "true" else str "false", rfl, rfl⟩
  obtain ⟨body, h1, h2⟩ := hbody
  refine ⟨body, h1, h2, ?_, ?_⟩
  · intro o later h
    exact waitLoop_within_timeout d body version ip path _ v answers hfound h2 (o :: later) h
  · intro o later pre ob rest hsplit hpre ha he
    show waitLoop d body version ip path (clampMaxWait maxWait) (o :: later) = some (v, true)
    rw [hsplit]
    exact waitLoop_after_timeout d body version ip path _ v answers hfound h2 pre ob rest
      hpre ha he

/-- C3 amended, at the string `active` found at the root of version `v1`: a
pass at 30 seconds does not return, the pass after 60 seconds returns the
value. -/
theorem wait_on_unchanged_scalar_witness :
    ∃ body, respondText (.string (str "active")) = some ⟨200, body⟩ ∧
      lookupAnswer rootDeps true body (str "v1") (str "10.0.0.1") [] 0
        ⟨[(str "v1", .string (str "active"))], 30000000000⟩ [] = none ∧
      lookupAnswer rootDeps true body (str "v1") (str "10.0.0.1") [] 0
        ⟨[(str "v1", .string (str "active"))], 30000000000⟩
        [⟨[(str "v1", .string (str "active"))], 60000000001⟩] =
        some (.string (str "active"), true) := by
  obtain ⟨body, h1, _, h3, h4⟩ := wait_on_unchanged_scalar rootDeps
    (.string (str "active")) (Or.inl ⟨_, rfl⟩) [(str "v1", .string (str "active"))]
    (str "v1") (str "10.0.0.1") [] rfl 0
  refine ⟨body, h1, ?_, ?_⟩
  · apply h3
    intro ob hob
    simp only [List.mem_singleton] at hob
    subst hob
    exact ⟨rfl, by decide⟩
  · apply h4 _ _ [⟨[(str "v1", .string (str "active"))], 30000000000⟩]
      ⟨[(str "v1", .string (str "active"))], 60000000001⟩ [] rfl
    · intro x hx
      simp only [List.mem_singleton] at hx
      subst hx
      exact ⟨rfl, by decide⟩
    · rfl
    · decide

/-! ## The status of a response -/

theorem respondError_status (d : Deps)
    (hErr : ∀ msg code, ∃ bytes, d.jsonMarshal (errorObj msg code) = .ok bytes)
    (ct : ContentType) (msg : GoString) (statusCode : Nat) :
    ∃ body, respondError d ct msg statusCode = ⟨statusCode, body⟩ := by
  cases ct with
  | ContentText => exact ⟨_, rfl⟩
  | ContentJSON =>
    obtain ⟨bytes, hb⟩ := hErr msg statusCode
    exact ⟨bytes ++ str "\n", by simp only [respondError, hb]⟩

theorem decodeSegments_error (segs : List GoString)
    (h : ∃ s ∈ segs, ∃ e, QueryUnescape s = .error e) :
    ∃ e, decodeSegments segs = .error e := by
  induction segs with
  | nil =>
    obtain ⟨s, hs, _⟩ := h
    cases hs
  | cons a rest ih =>
    cases ha : QueryUnescape a with
    | error e => exact ⟨e, by simp only [decodeSegments, ha]⟩
    | ok k =>
      obtain ⟨s, hs, e, he⟩ := h
      rcases List.mem_cons.mp hs with rfl | hs
      · rw [ha] at he; cases he
      · obtain ⟨e', he'⟩ := ih ⟨s, hs, e, he⟩
        exact ⟨e', by simp only [decodeSegments, ha, he']⟩

theorem decodeSegments_ok (segs : List GoString)
    (h : ∀ s ∈ segs, ∃ k, QueryUnescape s = .ok k) :
    ∃ ks, decodeSegments segs = .ok ks := by
  induction segs with
  | nil => exact ⟨[], rfl⟩
  | cons a rest ih =>
    obtain ⟨k, hk⟩ := h a (List.mem_cons_self _ _)
    obtain ⟨ks, hks⟩ := ih (fun s hs => h s (List.mem_cons_of_mem _ hs))
    exact ⟨k :: ks, by simp only [decodeSegments, hk, hks]⟩

theorem pickVersion_accepts (answers : Answers) (version : GoString)
    (h : version ∈ Versions answers ∨ version = str "latest") :
    ∃ v, pickVersion answers version = some v := by
  by_cases hk : version ∈ Versions answers
  · exact ⟨_, pickVersion_key _ _ hk⟩
  · rcases h with h | h
    · exact absurd h hk
    · exact ⟨_, pickVersion_latest _ _ hk h⟩

theorem respondText_status (val : Value) (r : Response) (h : respondText val = some r) :
    (r.status = 200 ∨ r.status = 500) ∧ (r.status = 500 ↔ ∃ t, val = .other t) := by
  cases val with
  | sequence l =>
    simp only [respondText] at h
    split at h
    · cases h
    · cases h
      exact ⟨Or.inl rfl, by simp⟩
  | other t =>
    cases h
    exact ⟨Or.inr rfl, by simp⟩
  | null => cases h; exact ⟨Or.inl rfl, by simp⟩
  | string s => cases h; exact ⟨Or.inl rfl, by simp⟩
  | number s => cases h; exact ⟨Or.inl rfl, by simp⟩
  | int n => cases h; exact ⟨Or.inl rfl, by simp⟩
  | float64 f => cases h; exact ⟨Or.inl rfl, by simp⟩
  | bool b => cases h; exact ⟨Or.inl rfl, by simp⟩
  | mapping m => cases h; exact ⟨Or.inl rfl, by simp⟩

theorem respondJSON_status (d : Deps) (val : Value) :
    ((respondJSON d val).status = 200 ∨ (respondJSON d val).status = 500) ∧
    ((respondJSON d val).status = 500 ↔ ∃ e, d.jsonMarshal val = .error e) := by
  unfold respondJSON
  cases hm : d.jsonMarshal val with
  | ok bytes => exact ⟨Or.inl rfl, by simp⟩
  | error e =>
    have h500 : (respondError d .ContentJSON (str "Error serializing to JSON: " ++ e) 500).status
        = 500 := by
      simp only [respondError]
      split <;> rfl
    exact ⟨Or.inr h500, by simp [h500]⟩

/-- C7, refuted as stated. In text mode, with the path found: a value of a
type `respondText` does not handle is answered with status 500, and a slice
whose map element has a `name` that is not a string makes the handler panic,
so that no status 200 is sent. -/
theorem found_but_not_200 :
    (lookupAnswer rootDeps false [] (str "v1") (str "10.0.0.1") [] 0
        ⟨[(str "v1", .other (str "x"))], 0⟩ [] = some (.other (str "x"), true) ∧
      (metadata rootDeps [(str "v1", .other (str "x"))]
        ⟨[(str "v1", .other (str "x"))], 0⟩ []
        ⟨str "v1", false, [], 0, str "/v1", .ContentText, str "10.0.0.1"⟩).outcome =
        .responded ⟨500, str "Value is of a type I don't know how to handle\n"⟩) ∧
    (lookupAnswer rootDeps false [] (str "v1") (str "10.0.0.1") [] 0
        ⟨[(str "v1", .sequence [.mapping [(str "name", .float64 ⟨str "5.000000", str "5"⟩)]])],
          0⟩ [] =
        some (.sequence [.mapping [(str "name", .float64 ⟨str "5.000000", str "5"⟩)]], true) ∧
      (metadata rootDeps
        [(str "v1", .sequence [.mapping [(str "name", .float64 ⟨str "5.000000", str "5"⟩)]])]
        ⟨[(str "v1", .sequence [.mapping [(str "name", .float64 ⟨str "5.000000", str "5"⟩)]])],
          0⟩ []
        ⟨str "v1", false, [], 0, str "/v1", .ContentText, str "10.0.0.1"⟩).outcome =
        .panicked) := by
  refine ⟨⟨rfl, rfl⟩, ⟨rfl, rfl⟩⟩

theorem metadata_bad_segment (d : Deps) (answers : Answers) (o : Obs) (later : List Obs)
    (req : Request) (version : GoString) (h : pickVersion answers req.version = some version)
    (c : Byte) (p : GoString) (hp : req.escapedPath = c :: p) (e : GoString)
    (he : decodeSegments (pathSegments p) = .error e) :
    metadata d answers o later req =
      ⟨none, .responded (respondError d req.contentType (escapeErrorText d e) 400)⟩ := by
  unfold metadata
  rw [h]
  simp only [hp, he]

theorem metadata_after_lookup (d : Deps) (answers : Answers) (o : Obs) (later : List Obs)
    (req : Request) (version : GoString) (h : pickVersion answers req.version = some version)
    (c : Byte) (p : GoString) (hp : req.escapedPath = c :: p) (segs : List GoString)
    (hs : decodeSegments (pathSegments p) = .ok segs) (val : Value) (ok : Bool)
    (hl : lookupAnswer d req.wait req.oldValue version req.clientIp segs
      (wrapInt64 (req.maxWait * Second)) o later = some (val, ok)) :
    (ok = false → (metadata d answers o later req).outcome =
      .responded (respondError d req.contentType (str "Not found") 404)) ∧
    (ok = true → ∀ r, respondSuccess d req.contentType val = some r →
      (metadata d answers o later req).outcome = .responded r) := by
  unfold metadata
  rw [h]
  simp only [hp, hs, hl]
  constructor
  · intro hok
    subst hok
    simp
  · intro hok r hr
    subst hok
    simp [hr]

/-- C7, amended. For a request with a non-empty escaped path, the error
envelope being one `json.Marshal` encodes: the status is 404, with no lookup,
when the version is not a key of the snapshot and is not `latest`; otherwise
400, with no lookup, when some path segment is not valid percent-encoding;
otherwise the lookup is made and, whether it was immediate or a wait that
ended by timeout or by a change, the status is 404 when it does not find the
path, and when it finds it and the value is rendered the status is 200, save
that it is 500 for a value of a type the text renderer does not handle (text
mode) and for a value the JSON encoder rejects (JSON mode). -/
theorem metadata_status (d : Deps)
    (hErr : ∀ msg code, ∃ bytes, d.jsonMarshal (errorObj msg code) = .ok bytes)
    (answers : Answers) (o : Obs) (later : List Obs) (req : Request)
    (c : Byte) (p : GoString) (hp : req.escapedPath = c :: p) :
    (req.version ∉ Versions answers → req.version ≠ str "latest" →
      (metadata d answers o later req).lookup = none ∧
      ∃ body, (metadata d answers o later req).outcome = .responded ⟨404, body⟩) ∧
    ((req.version ∈ Versions answers ∨ req.version = str "latest") →
      (∃ s ∈ pathSegments p, ∃ e, QueryUnescape s = .error e) →
      (metadata d answers o later req).lookup = none ∧
      ∃ body, (metadata d answers o later req).outcome = .responded ⟨400, body⟩) ∧
    ((req.version ∈ Versions answers ∨ req.version = str "latest") →
      (∀ s ∈ pathSegments p, ∃ k, QueryUnescape s = .ok k) →
      ∃ version segs, (metadata d answers o later req).lookup = some (version, segs) ∧
        ∀ val ok, lookupAnswer d req.wait req.oldValue version req.clientIp segs
            (wrapInt64 (req.maxWait * Second)) o later = some (val, ok) →
          (ok = false →
            ∃ body, (metadata d answers o later req).outcome = .responded ⟨404, body⟩) ∧
          (ok = true → ∀ r, respondSuccess d req.contentType val = some r →
            (metadata d answers o later req).outcome = .responded r ∧
            (r.status = 200 ∨ r.status = 500) ∧
            (req.contentType = .ContentText → (r.status = 500 ↔ ∃ t, val = .other t)) ∧
            (req.contentType = .ContentJSON →
              (r.status = 500 ↔ ∃ e, d.jsonMarshal val = .error e)))) := by
  refine ⟨?_, ?_, ?_⟩
  · intro h hlat
    rw [metadata_invalid_version d answers o later req (pickVersion_other _ _ h hlat)]
    obtain ⟨body, hb⟩ := respondError_status d hErr req.contentType (str "Invalid version") 404
    exact ⟨rfl, body, by rw [hb]⟩
  · intro h hbad
    obtain ⟨version, hv⟩ := pickVersion_accepts answers req.version h
    obtain ⟨e, he⟩ := decodeSegments_error _ hbad
    rw [metadata_bad_segment d answers o later req version hv c p hp e he]
    obtain ⟨body, hb⟩ := respondError_status d hErr req.contentType (escapeErrorText d e) 400
    exact ⟨rfl, body, by rw [hb]⟩
  · intro h hgood
    obtain ⟨version, hv⟩ := pickVersion_accepts answers req.version h
    obtain ⟨segs, hs⟩ := decodeSegments_ok _ hgood
    refine ⟨version, segs,
      metadata_lookup_performed d answers o later req version hv c p segs hp hs, ?_⟩
    intro val ok hl
    obtain ⟨h1, h2⟩ := metadata_after_lookup d answers o later req version hv c p hp segs hs
      val ok hl
    constructor
    · intro hok
      rw [h1 hok]
      obtain ⟨body, hb⟩ := respondError_status d hErr req.contentType (str "Not found") 404
      exact ⟨body, by rw [hb]⟩
    · intro hok r hr
      refine ⟨h2 hok r hr, ?_, ?_, ?_⟩
      · cases hct : req.contentType with
        | ContentText =>
          rw [hct] at hr
          exact (respondText_status val r hr).1
        | ContentJSON =>
          rw [hct] at hr
          cases hr
          exact (respondJSON_status d val).1
      · intro hct
        rw [hct] at hr
        exact (respondText_status val r hr).2
      · intro hct
        rw [hct] at hr
        cases hr
        exact (respondJSON_status d val).2

/-- C7 amended, at `GET /v1/a%2` on the snapshot with the one version `v1`:
the last segment is not valid percent-encoding, the status is 400 and no
lookup is made. -/
theorem metadata_status_witness :
    (metadata rootDeps [(str "v1", .string (str "x"))]
        ⟨[(str "v1", .string (str "x"))], 0⟩ []
        ⟨str "v1", false, [], 0, str "/v1/a%2", .ContentText, str "10.0.0.1"⟩).lookup = none ∧
    ∃ body, (metadata rootDeps [(str "v1", .string (str "x"))]
        ⟨[(str "v1", .string (str "x"))], 0⟩ []
        ⟨str "v1", false, [], 0, str "/v1/a%2", .ContentText, str "10.0.0.1"⟩).outcome =
        .responded ⟨400, body⟩ :=
  (metadata_status rootDeps (fun _ _ => ⟨[], rfl⟩) [(str "v1", .string (str "x"))]
    ⟨[(str "v1", .string (str "x"))], 0⟩ []
    ⟨str "v1", false, [], 0, str "/v1/a%2", .ContentText, str "10.0.0.1"⟩
    47 (str "v1/a%2") (by decide)).2.1 (Or.inl (by decide))
    ⟨str "a%2", by decide, str "%2", rfl⟩

/-! ## A magic key whose value is not a string -/

theorem magicLine_panic_iff (k : Nat) (m : List (GoString × Value)) :
    magicLine k m MAGIC_ARRAY_KEYS = .panic ↔ FirstMagicKeyNotString m := by
  simp only [MAGIC_ARRAY_KEYS, magicLine, FirstMagicKeyNotString]
  cases hn : m.lookup (str "name") with
  | some v =>
    cases v <;> simp
  | none =>
    cases hu : m.lookup (str "uuid") with
    | some v => cases v <;> simp
    | none => simp

theorem sequenceLine_none_iff (k : Nat) (vv : Value) :
    sequenceLine k vv = none ↔ ∃ m, vv = .mapping m ∧ FirstMagicKeyNotString m := by
  cases vv with
  | mapping m =>
    have h := magicLine_panic_iff k m
    constructor
    · intro hs
      refine ⟨m, rfl, h.mp ?_⟩
      simp only [sequenceLine] at hs
      cases hm : magicLine k m MAGIC_ARRAY_KEYS with
      | absent => rw [hm] at hs; cases hs
      | line s => rw [hm] at hs; cases hs
      | panic => rfl
    · rintro ⟨m', hm', hf⟩
      cases hm'
      simp only [sequenceLine, h.mpr hf]
  | sequence l => simp [sequenceLine]
  | null => simp [sequenceLine]
  | string s => simp [sequenceLine]
  | number s => simp [sequenceLine]
  | int n => simp [sequenceLine]
  | float64 f => simp [sequenceLine]
  | bool b => simp [sequenceLine]
  | other s => simp [sequenceLine]

theorem sequenceLines_none_iff (l : List Value) :
    ∀ k : Nat, sequenceLines k l = none ↔
      ∃ e ∈ l, ∃ m, e = .mapping m ∧ FirstMagicKeyNotString m := by
  induction l with
  | nil => intro k; simp [sequenceLines]
  | cons vv rest ih =>
    intro k
    simp only [sequenceLines, List.mem_cons, exists_eq_or_imp]
    rw [← sequenceLine_none_iff k vv, ← ih (k + 1)]
    cases sequenceLine k vv with
    | none => simp
    | some line =>
      cases sequenceLines (k + 1) rest <;> simp

/-- C11, the code at the failing inputs. `respondText` panics on the slice
`[{name: 5}]`, which the claim lists as `0/`; on `[{name: 5, uuid: "u1"}]`,
which the claim lists as `0=u1`; and on `["a", {uuid: true}]`, which the claim
lists as `0` and `1/`. In general it panics on a slice exactly when some
element is a map whose first magic key present, `name` before `uuid`, has a
value that is not a string. -/
theorem respondText_sequence_panics :
    respondText (.sequence
      [.mapping [(str "name", .float64 ⟨str "5.000000", str "5"⟩)]]) = none ∧
    respondText (.sequence
      [.mapping [(str "name", .float64 ⟨str "5.000000", str "5"⟩),
        (str "uuid", .string (str "u1"))]]) = none ∧
    respondText (.sequence
      [.string (str "a"), .mapping [(str "uuid", .bool true)]]) = none ∧
    ∀ l : List Value, respondText (.sequence l) = none ↔
      ∃ e ∈ l, ∃ m, e = Value.mapping m ∧ FirstMagicKeyNotString m := by
  refine ⟨by decide, by decide, by decide, ?_⟩
  intro l
  rw [← sequenceLines_none_iff l 0]
  simp only [respondText]
  cases sequenceLines 0 l <;> simp

end Metadata
